import Mathlib

/-!
Verification development for the campaign execution engine in `src/main.py`
(bulk personalized email sender).

The engine is embedded shallowly:

* `Camp` is the in-memory campaign dict created by `start_campaign`
  (status, counters, `last_error`, `total`); configuration fields that the
  claims never inspect (SMTP host/port/credentials, the HTML body, the
  subject) are kept out of `Camp` and, where needed, carried separately.
* `run_campaign` (lines 306-356) is modelled as a pure recursion over the
  recipient indices.  The external effects are oracles:
  `send : Nat → Option String` gives, for recipient index `i`, `none` when
  `send_email_smtp` returns normally and `some e` when it raises an
  exception whose `str` is `e`; `wfail : Nat → Bool` tells whether the
  `update_campaign_db_stats` call made after recipient `i` raises (the
  Python code does not guard that call, so a raise propagates and kills the
  worker thread — modelled by the `aborted` flag); `stopAt : Option Nat`
  gives the first recipient-boundary check at which a concurrent
  `stop_campaign` write of `"stopped"` is visible to the loop.
* Wall-clock sleeping is not performed; the loop instead counts the
  `time.sleep` calls it would make (`waits`), and the pacing interval is
  the exact rational `60 / speed`.
* The PostgreSQL `campaigns` table is a `List DBRow`; the SQL statements of
  `create_campaign_db`, `update_campaign_db_stats`,
  `set_campaign_db_status` and the SELECTs become list operations.
  `updated_at` (only ever set to `NOW()`) is not modelled.
* The `CAMPAIGNS` dict is an association list `Mem` with Python dict
  semantics (`dictSet` overwrites in place, insertion order preserved).
* `render_template` (lines 170-173) is modelled over `List Char`, with
  `replaceAll` reproducing Python `str.replace` exactly: scan left to
  right, replace non-overlapping occurrences, never rescan the replacement
  text within the same pass.
-/

namespace SV

/-- Campaign status strings used by `main.py`: `"queued"`, `"running"`,
`"finished"`, `"stopped"`. -/
inductive Status where
  | queued
  | running
  | finished
  | stopped
deriving DecidableEq, Repr

/-- Mutable in-memory campaign state: the counter/status part of the dict
stored in `CAMPAIGNS[campaign_id]` by `start_campaign` (lines 382-403). -/
structure Camp where
  status : Status
  processed : Nat
  sent : Nat
  failed : Nat
  delivered : Nat
  bounced : Nat
  last_error : Option String
  total : Nat
deriving DecidableEq, Repr

/-- Initial campaign state built by `start_campaign`: status `queued`, all
counters `0`, `last_error` `None`, `total = len(contacts)`. -/
def initCamp (total : Nat) : Camp :=
  ⟨Status.queued, 0, 0, 0, 0, 0, none, total⟩

/-- One recipient attempt (body of the `try`/`except` at lines 326-346):
on send success increment `sent` and `delivered`; on an exception `e`
increment `failed` and `bounced` and overwrite `last_error` with `str(e)`;
then increment `processed` unconditionally. -/
def stepRecipient (outcome : Option String) (c : Camp) : Camp :=
  match outcome with
  | none =>
    { c with
      sent := c.sent + 1
      delivered := c.delivered + 1
      processed := c.processed + 1 }
  | some e =>
    { c with
      failed := c.failed + 1
      bounced := c.bounced + 1
      last_error := some e
      processed := c.processed + 1 }

/-- Whether the concurrent `camp["status"] = "stopped"` write of
`stop_campaign` is visible at the boundary check (line 323) before
recipient `idx`: `stopAt = some k` means the write lands before the check
for recipient `k` (and hence stays visible at every later check). -/
def stopSeen (stopAt : Option Nat) (idx : Nat) : Bool :=
  match stopAt with
  | none => false
  | some k => decide (k ≤ idx)

/-- Result of one execution of the worker loop of `run_campaign`:
the final in-memory state, the list of states observed after each
recipient iteration, the number of `send_email_smtp` invocations, the
number of `time.sleep` calls, and whether an unguarded
`update_campaign_db_stats` raise aborted the worker thread. -/
structure LoopOut where
  final : Camp
  trace : List Camp
  sendCalls : Nat
  waits : Nat
  aborted : Bool
deriving DecidableEq, Repr

/-- The `for idx, contact in enumerate(contacts)` loop of `run_campaign`
(lines 322-356) from recipient `idx` with `rem` recipients left
(`idx + rem = total` at every call), followed by the post-loop
finalization (lines 354-356).  The per-recipient
`update_campaign_db_stats` call (line 349) is unguarded in the source, so
when `wfail idx` holds the exception propagates: the loop stops with the
counters already updated and no finalization runs. -/
def runLoop (send : Nat → Option String) (wfail : Nat → Bool)
    (stopAt : Option Nat) (delay : ℚ) (total : Nat) :
    Nat → Nat → Camp → LoopOut
  | _, 0, c =>
    ⟨if c.status = Status.stopped then c else { c with status := Status.finished },
      [], 0, 0, false⟩
  | idx, rem + 1, c =>
    if stopSeen stopAt idx then
      ⟨{ c with status := Status.stopped }, [], 0, 0, false⟩
    else
      let c1 := stepRecipient (send idx) c
      if wfail idx then
        ⟨c1, [c1], 1, 0, true⟩
      else
        let w : Nat := if 0 < delay ∧ idx < total - 1 then 1 else 0
        let out := runLoop send wfail stopAt delay total (idx + 1) rem c1
        ⟨out.final, c1 :: out.trace, out.sendCalls + 1, out.waits + w, out.aborted⟩

/-- Pacing interval computed at line 317:
`delay = 60.0 / speed if speed > 0 else 0.0`. -/
def campDelay (speed : Int) : ℚ :=
  if 0 < speed then 60 / (speed : ℚ) else 0

/-- The worker `run_campaign` (lines 306-356) on a freshly submitted
campaign of `total` recipients whose stored `speed_per_minute` is `speed`:
set status to `running`, push the initial snapshot (assumed to succeed;
`wfail` covers the per-recipient writes), run the loop, finalize. -/
def run_campaign (send : Nat → Option String) (wfail : Nat → Bool)
    (stopAt : Option Nat) (speed : Int) (total : Nat) : LoopOut :=
  let delay := campDelay speed
  let c0 := { initCamp total with status := Status.running }
  let out := runLoop send wfail stopAt delay total 0 total c0
  { out with trace := c0 :: out.trace }

/-- All observation points of one campaign execution: the freshly
submitted state (`queued`, all counters zero), the state just before the
loop (`running`), the state after each recipient iteration, and the final
state. -/
def fullTrace (total : Nat) (out : LoopOut) : List Camp :=
  initCamp total :: out.trace ++ [out.final]

/-- Counter invariant claimed by the spec for every observation point. -/
def campInv (c : Camp) : Prop :=
  c.sent + c.failed = c.processed ∧ c.processed ≤ c.total ∧
    c.delivered = c.sent ∧ c.bounced = c.failed

instance : DecidablePred campInv := fun c => by
  unfold campInv
  infer_instance

/-- Pointwise order on the five counters. -/
def Camp.counterLe (a b : Camp) : Prop :=
  a.processed ≤ b.processed ∧ a.sent ≤ b.sent ∧ a.failed ≤ b.failed ∧
    a.delivered ≤ b.delivered ∧ a.bounced ≤ b.bounced

instance : DecidableRel Camp.counterLe := fun a b => by
  unfold Camp.counterLe
  infer_instance

/-- Rank of a status in the partial order
`queued < running < \x7bfinished, stopped\x7d`. -/
def statusRank : Status → Nat
  | Status.queued => 0
  | Status.running => 1
  | Status.finished => 2
  | Status.stopped => 2

/-- One row of the PostgreSQL `campaigns` table (schema at lines 77-98).
The `updated_at` column, only ever assigned `NOW()`, is not modelled. -/
structure DBRow where
  campaign_id : String
  username : String
  subject : String
  status : Status
  total : Nat
  processed : Nat
  sent : Nat
  failed : Nat
  delivered : Nat
  bounced : Nat
  last_error : Option String
  created_at : Nat
deriving DecidableEq, Repr

/-- The `INSERT` of `create_campaign_db` (lines 229-249): a fresh row with
status `queued`, all counters zero, `last_error` `NULL`. -/
def create_campaign_db (db : List DBRow) (campaign_id username subject : String)
    (total : Nat) (now : Nat) : List DBRow :=
  db ++ [⟨campaign_id, username, subject, Status.queued, total, 0, 0, 0, 0, 0, none, now⟩]

/-- The `UPDATE ... WHERE campaign_id = %s` of `update_campaign_db_stats`
(lines 252-283): overwrite the mutable fields of every row with that
`campaign_id` from the in-memory camp. -/
def update_campaign_db_stats (db : List DBRow) (campaign_id : String)
    (camp : Camp) : List DBRow :=
  db.map fun r =>
    if r.campaign_id = campaign_id then
      { r with
        status := camp.status
        processed := camp.processed
        sent := camp.sent
        failed := camp.failed
        delivered := camp.delivered
        bounced := camp.bounced
        last_error := camp.last_error }
    else r

/-- The `UPDATE ... WHERE campaign_id = %s AND username = %s` of
`set_campaign_db_status` (lines 286-302). -/
def set_campaign_db_status (db : List DBRow) (campaign_id username : String)
    (new_status : Status) : List DBRow :=
  db.map fun r =>
    if r.campaign_id = campaign_id ∧ r.username = username then
      { r with status := new_status }
    else r

/-- An in-memory `CAMPAIGNS` entry: the ownership, pacing and counter
fields of the dict built at lines 382-403 that the engine reads back
(SMTP configuration and the template are opaque to every claim). -/
structure MemEntry where
  user : String
  speed_per_minute : Int
  camp : Camp
deriving DecidableEq, Repr

/-- The `CAMPAIGNS` dict, as an insertion-ordered association list. -/
abbrev Mem := List (String × MemEntry)

/-- Python `CAMPAIGNS.get(campaign_id)`. -/
def lookupMem : Mem → String → Option MemEntry
  | [], _ => none
  | (k, v) :: rest, cid => if k = cid then some v else lookupMem rest cid

/-- Python `CAMPAIGNS[campaign_id] = entry`: overwrite in place if the key
exists, otherwise append. -/
def dictSet : Mem → String → MemEntry → Mem
  | [], cid, e => [(cid, e)]
  | (k, v) :: rest, cid, e =>
    if k = cid then (cid, e) :: rest else (k, v) :: dictSet rest cid e

/-- FastAPI-level error: an `HTTPException` with status code and detail. -/
structure HErr where
  code : Nat
  detail : String
deriving DecidableEq, Repr

/-- Response body of `POST /start_campaign` (lines 412-416). -/
structure StartResp where
  campaign_id : String
  total_contacts : Nat
  message : String
deriving DecidableEq, Repr

instance {α β : Type} [DecidableEq α] [DecidableEq β] : DecidableEq (Except α β)
  | Except.error a, Except.error b =>
    if h : a = b then Decidable.isTrue (congrArg Except.error h)
    else Decidable.isFalse (fun hc => h (Except.error.inj hc))
  | Except.error _, Except.ok _ => Decidable.isFalse (fun hc => Except.noConfusion hc)
  | Except.ok _, Except.error _ => Decidable.isFalse (fun hc => Except.noConfusion hc)
  | Except.ok a, Except.ok b =>
    if h : a = b then Decidable.isTrue (congrArg Except.ok h)
    else Decidable.isFalse (fun hc => h (Except.ok.inj hc))

/-- Full outcome of one `start_campaign` request: the working memory and
table afterwards, the bumped campaign counter, the HTTP result, and
whether the worker thread was started. -/
structure StartOut where
  mem : Mem
  db : List DBRow
  counter : Nat
  resp : Except HErr StartResp
  threadStarted : Bool
deriving DecidableEq, Repr

/-- The `POST /start_campaign` handler (lines 359-416) after the CSV has
been parsed into `total` contacts (the parser raises before this point on
an empty list, so `total ≥ 1` on real requests; nothing below needs it).
The id counter is bumped under the lock, the in-memory entry is stored
with `speed_per_minute` clamped by `max(1, speed_per_minute)` (line 392),
and only then is the durable row inserted; `dbUp = false` means
`create_campaign_db` raises (sink unreachable / `DATABASE_URL` missing),
in which case the exception propagates to the submitter before the worker
thread is started — and the already-stored `CAMPAIGNS` entry stays. -/
def start_campaign (mem : Mem) (db : List DBRow) (counter : Nat) (dbUp : Bool)
    (current_user subject : String) (speed_per_minute : Int) (total : Nat)
    (now : Nat) : StartOut :=
  let counter' := counter + 1
  let campaign_id := current_user ++ "-" ++ toString counter'
  let entry : MemEntry := ⟨current_user, max 1 speed_per_minute, initCamp total⟩
  let mem' := dictSet mem campaign_id entry
  if dbUp then
    ⟨mem', create_campaign_db db campaign_id current_user subject total now,
      counter', Except.ok ⟨campaign_id, total, "Campaign started"⟩, true⟩
  else
    ⟨mem', db, counter',
      Except.error ⟨500, "Database not configured (DATABASE_URL missing)."⟩, false⟩

/-- Response body of `GET /campaign_status` (lines 441-453). -/
structure StatusResp where
  campaign_id : String
  subject : String
  status : Status
  processed : Nat
  sent : Nat
  failed : Nat
  delivered : Nat
  bounced : Nat
  last_error : Option String
  total : Nat
  created_at : Nat
deriving DecidableEq, Repr

/-- The `GET /campaign_status/\x7bcampaign_id\x7d` handler (lines
419-455): select the row with this `campaign_id` owned by the caller; a
missing row is a 404 `"Campaign not found"`. -/
def campaign_status (db : List DBRow) (current_user campaign_id : String) :
    Except HErr StatusResp :=
  match db.find? (fun r => r.campaign_id = campaign_id ∧ r.username = current_user) with
  | none => Except.error ⟨404, "Campaign not found"⟩
  | some r =>
    Except.ok ⟨r.campaign_id, r.subject, r.status, r.processed, r.sent, r.failed,
      r.delivered, r.bounced, r.last_error, r.total, r.created_at⟩

/-- Response body of `POST /stop_campaign` (line 469): returned on every
path, there is no not-found path. -/
structure StopResp where
  message : String
  campaign_id : String
deriving DecidableEq, Repr

/-- The `POST /stop_campaign/\x7bcampaign_id\x7d` handler (lines
458-469): if a live in-memory entry exists and is owned by the caller,
overwrite its status with `stopped` (whatever it was) and push the
snapshot; otherwise run the owner-filtered durable `UPDATE`.  Returns the
acknowledgement unconditionally. -/
def stop_campaign (mem : Mem) (db : List DBRow) (current_user campaign_id : String) :
    Mem × List DBRow × StopResp :=
  match lookupMem mem campaign_id with
  | some e =>
    if e.user = current_user then
      let camp' := { e.camp with status := Status.stopped }
      (dictSet mem campaign_id { e with camp := camp' },
        update_campaign_db_stats db campaign_id camp',
        ⟨"Campaign stop requested", campaign_id⟩)
    else
      (mem, set_campaign_db_status db campaign_id current_user Status.stopped,
        ⟨"Campaign stop requested", campaign_id⟩)
  | none =>
    (mem, set_campaign_db_status db campaign_id current_user Status.stopped,
      ⟨"Campaign stop requested", campaign_id⟩)

/-- Boolean prefix test on character lists (all-char equality of the
leading segment). -/
def beginsWith : List Char → List Char → Bool
  | [], _ => true
  | _ :: _, [] => false
  | a :: as, b :: bs => a = b && beginsWith as bs

/-- The placeholder token written `\x7b\x7bname\x7d\x7d` in the source. -/
def nameTok : List Char := ['{', '{', 'n', 'a', 'm', 'e', '}', '}']

/-- The placeholder token written `\x7b\x7bemail\x7d\x7d` in the source. -/
def emailTok : List Char := ['{', '{', 'e', 'm', 'a', 'i', 'l', '}', '}']

/-- Fueled worker for `replaceAll`; `fuel ≥ length of the input` makes the
fuel irrelevant (the input shrinks at every step). -/
def replaceAllAux (pat rep : List Char) : Nat → List Char → List Char
  | 0, s => s
  | _ + 1, [] => []
  | fuel + 1, c :: rest =>
    if pat ≠ [] ∧ beginsWith pat (c :: rest) then
      rep ++ replaceAllAux pat rep fuel (List.drop (pat.length - 1) rest)
    else
      c :: replaceAllAux pat rep fuel rest

/-- Python `s.replace(pat, rep)`: scan left to right, replace each
non-overlapping occurrence of `pat` by `rep`, continue after the matched
text (the replacement is never rescanned within the same pass). -/
def replaceAll (pat rep s : List Char) : List Char :=
  replaceAllAux pat rep s.length s

/-- One contact record as produced by `parse_contacts_file`: a name (may
be empty) and an email. -/
structure Contact where
  name : List Char
  email : List Char
deriving DecidableEq, Repr

/-- The renderer `render_template` (lines 170-173): first replace every
`\x7b\x7bname\x7d\x7d` by the contact's name, then replace every
`\x7b\x7bemail\x7d\x7d` in the resulting string — including occurrences
formed by the first substitution — by the contact's email. -/
def render_template (html_body : List Char) (contact : Contact) : List Char :=
  replaceAll emailTok contact.email (replaceAll nameTok contact.name html_body)

/-- Fueled worker for `substSpec`. -/
def substSpecAux (nm em : List Char) : Nat → List Char → List Char
  | 0, s => s
  | _ + 1, [] => []
  | fuel + 1, c :: rest =>
    if beginsWith nameTok (c :: rest) then
      nm ++ substSpecAux nm em fuel (List.drop 7 rest)
    else if beginsWith emailTok (c :: rest) then
      em ++ substSpecAux nm em fuel (List.drop 8 rest)
    else
      c :: substSpecAux nm em fuel rest

/-- Modelled from the spec's words (§4.2), for comparison with
`render_template`: simultaneous single-pass substitution — scan the body
once, replace each occurrence of the name token by `nm` and of the email
token by `em`, copy every other character unchanged, and never rescan
substituted text. -/
def substSpec (nm em s : List Char) : List Char :=
  substSpecAux nm em s.length s

/-- Boolean substring test: does `pat` occur anywhere in `s`? -/
def hasSub (pat : List Char) : List Char → Bool
  | [] => beginsWith pat []
  | c :: rest => beginsWith pat (c :: rest) || hasSub pat rest

/-- A template segment: literal text, the name token, or the email
token.  Bodies assembled from brace-free literals and tokens are the
well-formed templates on which sequential and simultaneous substitution
agree. -/
inductive Seg where
  | lit (s : List Char)
  | nameph
  | emailph
deriving DecidableEq, Repr

/-- Flatten a segment list to the body text it denotes. -/
def flatSegs : List Seg → List Char
  | [] => []
  | Seg.lit s :: r => s ++ flatSegs r
  | Seg.nameph :: r => nameTok ++ flatSegs r
  | Seg.emailph :: r => emailTok ++ flatSegs r

/-- Substitute a segment list directly: literals pass through, tokens
become the corresponding contact field. -/
def substSegs (nm em : List Char) : List Seg → List Char
  | [] => []
  | Seg.lit s :: r => s ++ substSegs nm em r
  | Seg.nameph :: r => nm ++ substSegs nm em r
  | Seg.emailph :: r => em ++ substSegs nm em r

/-- A segment list is brace-clean when no literal contains `'\x7b'`. -/
def SegsClean (segs : List Seg) : Prop :=
  ∀ s, Seg.lit s ∈ segs → ∀ c ∈ s, c ≠ '{'

/-- Executable check for one brace-clean segment. -/
def segCleanB : Seg → Bool
  | Seg.lit s => s.all fun c => decide (c ≠ '{')
  | _ => true

/-- Executable check for `SegsClean`, usable on concrete templates. -/
def segsCleanB (segs : List Seg) : Bool :=
  segs.all segCleanB

/-- Replace a name placeholder segment by literal text `nm`. -/
def mapNameSeg (nm : List Char) : Seg → Seg
  | Seg.nameph => Seg.lit nm
  | g => g

/-- Replace an email placeholder segment by literal text `em`. -/
def mapEmailSeg (em : List Char) : Seg → Seg
  | Seg.emailph => Seg.lit em
  | g => g

/-- Replace the name placeholder segments by literal text `nm` (the effect
of the first `replace` pass on a well-formed template). -/
def mapName (nm : List Char) : List Seg → List Seg :=
  List.map (mapNameSeg nm)

/-- Replace the email placeholder segments by literal text `em` (the
effect of the second `replace` pass on a well-formed template). -/
def mapEmail (em : List Char) : List Seg → List Seg :=
  List.map (mapEmailSeg em)

/-- Number of recipient indices in `[idx, idx + rem)` whose send raises. -/
def countFails (send : Nat → Option String) : Nat → Nat → Nat
  | _, 0 => 0
  | idx, rem + 1 => (if (send idx).isSome then 1 else 0) + countFails send (idx + 1) rem

/-- Number of recipient indices in `[idx, idx + rem)` whose send succeeds. -/
def countSent (send : Nat → Option String) : Nat → Nat → Nat
  | _, 0 => 0
  | idx, rem + 1 => (if (send idx).isNone then 1 else 0) + countSent send (idx + 1) rem

/-- Forward order on statuses induced by `statusRank`. -/
def statusLe (a b : Status) : Prop := statusRank a ≤ statusRank b

instance : DecidableRel statusLe := fun a b => by
  unfold statusLe
  infer_instance

/-! Basic lemmas about one recipient step. -/

theorem stepRecipient_status (o : Option String) (c : Camp) :
    (stepRecipient o c).status = c.status := by
  cases o <;> rfl

theorem stepRecipient_total (o : Option String) (c : Camp) :
    (stepRecipient o c).total = c.total := by
  cases o <;> rfl

theorem stepRecipient_processed (o : Option String) (c : Camp) :
    (stepRecipient o c).processed = c.processed + 1 := by
  cases o <;> rfl

theorem stepRecipient_counterLe (o : Option String) (c : Camp) :
    Camp.counterLe c (stepRecipient o c) := by
  cases o <;> simp [stepRecipient, Camp.counterLe]

theorem counterLe_refl (c : Camp) : Camp.counterLe c c := by
  simp [Camp.counterLe]

theorem stepRecipient_inv (o : Option String) (c : Camp)
    (h1 : c.sent + c.failed = c.processed) (h2 : c.delivered = c.sent)
    (h3 : c.bounced = c.failed) :
    (stepRecipient o c).sent + (stepRecipient o c).failed = (stepRecipient o c).processed ∧
      (stepRecipient o c).delivered = (stepRecipient o c).sent ∧
      (stepRecipient o c).bounced = (stepRecipient o c).failed := by
  cases o <;> simp [stepRecipient] <;> omega

/-! The C1 loop lemma: the counter invariant holds at every observation
point and the counters grow monotonically along the trace. -/

theorem runLoop_inv_aux (send : Nat → Option String) (wfail : Nat → Bool)
    (stopAt : Option Nat) (delay : ℚ) (total : Nat) :
    ∀ (rem idx : Nat) (c : Camp), c.sent + c.failed = c.processed →
      c.delivered = c.sent → c.bounced = c.failed → c.processed + rem ≤ c.total →
      (∀ x ∈ (runLoop send wfail stopAt delay total idx rem c).trace, campInv x) ∧
        campInv (runLoop send wfail stopAt delay total idx rem c).final ∧
        List.Chain' Camp.counterLe
          (c :: ((runLoop send wfail stopAt delay total idx rem c).trace ++
            [(runLoop send wfail stopAt delay total idx rem c).final])) := by
  intro rem
  induction rem with
  | zero =>
    intro idx c h1 h2 h3 h4
    refine ⟨by simp [runLoop], ?_, ?_⟩
    · unfold runLoop
      split <;> simp [campInv] <;> omega
    · unfold runLoop
      split <;> simp [List.chain'_cons, Camp.counterLe]
  | succ n ih =>
    intro idx c h1 h2 h3 h4
    by_cases hs : stopSeen stopAt idx
    · refine ⟨by simp [runLoop, hs], ?_, ?_⟩
      · simp [runLoop, hs, campInv]
        omega
      · simp [runLoop, hs, List.chain'_cons, Camp.counterLe]
    · have hs' : stopSeen stopAt idx = false := by simpa using hs
      obtain ⟨j1, j2, j3⟩ := stepRecipient_inv (send idx) c h1 h2 h3
      have jp := stepRecipient_processed (send idx) c
      have jt := stepRecipient_total (send idx) c
      by_cases hw : wfail idx = true
      · refine ⟨?_, ?_, ?_⟩
        · simp [runLoop, hs', hw, campInv]
          refine ⟨j1, by omega, j2, j3⟩
        · simp [runLoop, hs', hw, campInv]
          refine ⟨j1, by omega, j2, j3⟩
        · simp [runLoop, hs', hw, List.chain'_cons]
          exact ⟨stepRecipient_counterLe (send idx) c, counterLe_refl _⟩
      · have hw' : wfail idx = false := by simpa using hw
        have hrec := ih (idx + 1) (stepRecipient (send idx) c) j1 j2 j3 (by omega)
        refine ⟨?_, ?_, ?_⟩
        · simp only [runLoop, hs', hw', Bool.false_eq_true, if_false, List.mem_cons]
          intro x hx
          rcases hx with h | h
          · subst h
            exact ⟨j1, by omega, j2, j3⟩
          · exact hrec.1 x h
        · simp only [runLoop, hs', hw', Bool.false_eq_true, if_false]
          exact hrec.2.1
        · simp only [runLoop, hs', hw', Bool.false_eq_true, if_false,
            List.cons_append, List.chain'_cons]
          exact ⟨stepRecipient_counterLe (send idx) c, hrec.2.2⟩

/-! Status lemmas for the C2 monotonicity claim. -/

theorem runLoop_trace_running (send : Nat → Option String) (wfail : Nat → Bool)
    (stopAt : Option Nat) (delay : ℚ) (total : Nat) :
    ∀ (rem idx : Nat) (c : Camp), c.status = Status.running →
      ∀ x ∈ (runLoop send wfail stopAt delay total idx rem c).trace,
        x.status = Status.running := by
  intro rem
  induction rem with
  | zero =>
    intro idx c hc
    simp [runLoop]
  | succ n ih =>
    intro idx c hc x hx
    by_cases hs : stopSeen stopAt idx = true
    · simp [runLoop, hs] at hx
    · have hs' : stopSeen stopAt idx = false := by simpa using hs
      have hstep : (stepRecipient (send idx) c).status = Status.running := by
        rw [stepRecipient_status]; exact hc
      by_cases hw : wfail idx = true
      · simp [runLoop, hs', hw] at hx
        subst hx; exact hstep
      · have hw' : wfail idx = false := by simpa using hw
        simp only [runLoop, hs', hw', Bool.false_eq_true, if_false,
          List.mem_cons] at hx
        rcases hx with h | h
        · subst h; exact hstep
        · exact ih (idx + 1) (stepRecipient (send idx) c) hstep x h

theorem runLoop_final_rank (send : Nat → Option String) (wfail : Nat → Bool)
    (stopAt : Option Nat) (delay : ℚ) (total : Nat) :
    ∀ (rem idx : Nat) (c : Camp), c.status = Status.running →
      1 ≤ statusRank (runLoop send wfail stopAt delay total idx rem c).final.status := by
  intro rem
  induction rem with
  | zero =>
    intro idx c hc
    unfold runLoop
    split <;> simp_all [statusRank]
  | succ n ih =>
    intro idx c hc
    by_cases hs : stopSeen stopAt idx = true
    · simp [runLoop, hs, statusRank]
    · have hs' : stopSeen stopAt idx = false := by simpa using hs
      have hstep : (stepRecipient (send idx) c).status = Status.running := by
        rw [stepRecipient_status]; exact hc
      by_cases hw : wfail idx = true
      · simp [runLoop, hs', hw]
        rw [hstep]
        simp [statusRank]
      · have hw' : wfail idx = false := by simpa using hw
        simp only [runLoop, hs', hw', Bool.false_eq_true, if_false]
        exact ih (idx + 1) (stepRecipient (send idx) c) hstep

theorem chain_running_rank (f : Status) (hf : 1 ≤ statusRank f) :
    ∀ mid : List Status, (∀ s ∈ mid, s = Status.running) →
      List.Chain' statusLe (Status.running :: mid ++ [f]) := by
  intro mid
  induction mid with
  | nil =>
    intro _
    simpa [List.chain'_cons, statusLe, statusRank] using hf
  | cons s rest ih =>
    intro hmid
    have hsr : s = Status.running := hmid s (List.mem_cons_self s rest)
    subst hsr
    simp only [List.cons_append, List.chain'_cons]
    exact ⟨le_refl _, ih fun t ht => hmid t (List.mem_cons_of_mem _ ht)⟩

/-! Lemmas about the undisturbed run (no stop request, every durable write
succeeds): exhaustion semantics for C5. -/

theorem runLoop_noStop (send : Nat → Option String) (delay : ℚ) (total : Nat) :
    ∀ (rem idx : Nat) (c : Camp),
      (runLoop send (fun _ => false) none delay total idx rem c).final.processed =
          c.processed + rem ∧
        (runLoop send (fun _ => false) none delay total idx rem c).sendCalls = rem ∧
        (runLoop send (fun _ => false) none delay total idx rem c).final.sent =
          c.sent + countSent send idx rem ∧
        (runLoop send (fun _ => false) none delay total idx rem c).final.failed =
          c.failed + countFails send idx rem ∧
        (runLoop send (fun _ => false) none delay total idx rem c).final.status =
          (if c.status = Status.stopped then c.status else Status.finished) ∧
        (runLoop send (fun _ => false) none delay total idx rem c).aborted = false := by
  intro rem
  induction rem with
  | zero =>
    intro idx c
    unfold runLoop
    split <;> simp_all [countSent, countFails]
  | succ n ih =>
    intro idx c
    have hrec := ih (idx + 1) (stepRecipient (send idx) c)
    simp only [runLoop, stopSeen, Bool.false_eq_true, if_false]
    cases hsend : send idx <;>
      simp_all [stepRecipient, countSent, countFails, stepRecipient_status] <;>
      omega

theorem runLoop_lastErr_clean (send : Nat → Option String) (delay : ℚ) (total : Nat) :
    ∀ (rem idx : Nat) (c : Camp), (∀ j, idx ≤ j → j < idx + rem → send j = none) →
      (runLoop send (fun _ => false) none delay total idx rem c).final.last_error =
        c.last_error := by
  intro rem
  induction rem with
  | zero =>
    intro idx c _
    unfold runLoop
    split <;> rfl
  | succ n ih =>
    intro idx c hclean
    have h0 : send idx = none := hclean idx (le_refl idx) (by omega)
    simp only [runLoop, stopSeen, Bool.false_eq_true, if_false]
    rw [ih (idx + 1) (stepRecipient (send idx) c)
      (fun j hj1 hj2 => hclean j (by omega) (by omega))]
    simp [h0, stepRecipient]

theorem runLoop_lastErr_final (send : Nat → Option String) (delay : ℚ) (total : Nat) :
    ∀ (rem idx : Nat) (c : Camp) (k : Nat) (e : String), idx ≤ k → k < idx + rem →
      send k = some e → (∀ j, k < j → j < idx + rem → send j = none) →
      (runLoop send (fun _ => false) none delay total idx rem c).final.last_error =
        some e := by
  intro rem
  induction rem with
  | zero =>
    intro idx c k e hk1 hk2
    omega
  | succ n ih =>
    intro idx c k e hk1 hk2 hke hclean
    simp only [runLoop, stopSeen, Bool.false_eq_true, if_false]
    by_cases hik : idx = k
    · subst hik
      rw [runLoop_lastErr_clean send delay total n (idx + 1)
        (stepRecipient (send idx) c) (fun j hj1 hj2 => hclean j (by omega) (by omega))]
      simp [hke, stepRecipient]
    · exact ih (idx + 1) (stepRecipient (send idx) c) k e (by omega) (by omega)
        hke (fun j hj1 hj2 => hclean j hj1 (by omega))

/-! Stop-request semantics for C6: the external stop becomes visible at
the boundary check before recipient `k`. -/

theorem runLoop_stop (send : Nat → Option String) (delay : ℚ) (total k : Nat) :
    ∀ (rem idx : Nat) (c : Camp), idx ≤ k → c.status = Status.running →
      (runLoop send (fun _ => false) (some k) delay total idx rem c).sendCalls =
          min (k - idx) rem ∧
        (runLoop send (fun _ => false) (some k) delay total idx rem c).final.processed =
          c.processed + min (k - idx) rem ∧
        (runLoop send (fun _ => false) (some k) delay total idx rem c).final.status =
          (if k < idx + rem then Status.stopped else Status.finished) := by
  intro rem
  induction rem with
  | zero =>
    intro idx c hik hc
    unfold runLoop
    simp [hc]
    rw [if_neg (by omega)]
  | succ n ih =>
    intro idx c hik hc
    by_cases hstop : k ≤ idx
    · have hk : k = idx := by omega
      subst hk
      simp [runLoop, stopSeen]
    · have hs' : stopSeen (some k) idx = false := by
        simp [stopSeen]
        omega
      have hstep : (stepRecipient (send idx) c).status = Status.running := by
        rw [stepRecipient_status]; exact hc
      have hrec := ih (idx + 1) (stepRecipient (send idx) c) (by omega) hstep
      simp only [runLoop, hs', Bool.false_eq_true, if_false]
      rcases hrec with ⟨r1, r2, r3⟩
      have harr : idx + 1 + n = idx + (n + 1) := by omega
      refine ⟨by rw [r1]; omega, ?_, by rw [r3, harr]⟩
      rw [r2, stepRecipient_processed]
      omega

/-! Abort semantics for C3: the per-recipient durable write raises at
recipient `k` and the exception propagates out of the worker loop. -/

theorem runLoop_wfail (send : Nat → Option String) (delay : ℚ) (total k : Nat) :
    ∀ (rem idx : Nat) (c : Camp), idx ≤ k → k < idx + rem →
      c.status = Status.running →
      (runLoop send (fun i => decide (i = k)) none delay total idx rem c).aborted =
          true ∧
        (runLoop send (fun i => decide (i = k)) none delay total idx rem c).sendCalls =
          k - idx + 1 ∧
        (runLoop send (fun i => decide (i = k)) none delay total idx rem
              c).final.processed =
          c.processed + (k - idx) + 1 ∧
        (runLoop send (fun i => decide (i = k)) none delay total idx rem
              c).final.status =
          Status.running := by
  intro rem
  induction rem with
  | zero =>
    intro idx c hk1 hk2
    omega
  | succ n ih =>
    intro idx c hk1 hk2 hc
    have hstep : (stepRecipient (send idx) c).status = Status.running := by
      rw [stepRecipient_status]; exact hc
    by_cases hik : idx = k
    · subst hik
      simp [runLoop, stopSeen, stepRecipient_status, hc, stepRecipient_processed]
    · have hw' : (decide (idx = k) : Bool) = false := by
        simp [hik]
      have hlt : idx < k := by omega
      have hrec := ih (idx + 1) (stepRecipient (send idx) c) (by omega) (by omega) hstep
      simp only [runLoop, stopSeen, Bool.false_eq_true, if_false, hw']
      rcases hrec with ⟨r1, r2, r3, r4⟩
      refine ⟨r1, ?_, ?_, r4⟩
      · rw [r2]
        omega
      · rw [r3, stepRecipient_processed]
        omega

/-! Pacing-wait count for C7. -/

theorem runLoop_waits (send : Nat → Option String) (delay : ℚ) (total : Nat)
    (hd : 0 < delay) :
    ∀ (rem idx : Nat) (c : Camp), idx + rem = total →
      (runLoop send (fun _ => false) none delay total idx rem c).waits = rem - 1 := by
  intro rem
  induction rem with
  | zero =>
    intro idx c _
    rfl
  | succ n ih =>
    intro idx c hit
    simp only [runLoop, stopSeen, Bool.false_eq_true, if_false]
    rw [ih (idx + 1) (stepRecipient (send idx) c) (by omega)]
    by_cases hlast : idx < total - 1
    · simp [hd, hlast]
      omega
    · simp [hlast]
      omega

/-! Working-memory and durable-table lemmas. -/

theorem lookupMem_dictSet_self (m : Mem) (cid : String) (e : MemEntry) :
    lookupMem (dictSet m cid e) cid = some e := by
  induction m with
  | nil => simp [dictSet, lookupMem]
  | cons p rest ih =>
    by_cases hp : p.1 = cid
    · simp [dictSet, hp, lookupMem]
    · cases p
      simp_all [dictSet, hp, lookupMem]

theorem set_campaign_db_status_noMatch (db : List DBRow) (cid user : String)
    (st : Status) (h : ∀ r ∈ db, ¬(r.campaign_id = cid ∧ r.username = user)) :
    set_campaign_db_status db cid user st = db := by
  unfold set_campaign_db_status
  rw [List.map_congr_left fun r hr => if_neg (h r hr)]
  exact List.map_id db

theorem campaign_status_noMatch (db : List DBRow) (user cid : String)
    (h : ∀ r ∈ db, ¬(r.campaign_id = cid ∧ r.username = user)) :
    campaign_status db user cid = Except.error ⟨404, "Campaign not found"⟩ := by
  unfold campaign_status
  rw [List.find?_eq_none.mpr fun r hr => by simpa using h r hr]

/-! Renderer lemmas: Python `str.replace` semantics over `List Char`. -/

theorem replaceAllAux_nil (pat rep : List Char) : ∀ f, replaceAllAux pat rep f [] = [] := by
  intro f
  cases f <;> rfl

theorem replaceAllAux_fuelInv (pat rep : List Char) :
    ∀ (n f g : Nat) (s : List Char), s.length ≤ f → s.length ≤ g → s.length ≤ n →
      replaceAllAux pat rep f s = replaceAllAux pat rep g s := by
  intro n
  induction n with
  | zero =>
    intro f g s hf hg hn
    have hs : s = [] := by
      cases s with
      | nil => rfl
      | cons a t => rw [List.length_cons] at hn; omega
    subst hs
    rw [replaceAllAux_nil, replaceAllAux_nil]
  | succ m ih =>
    intro f g s hf hg hn
    cases s with
    | nil => rw [replaceAllAux_nil, replaceAllAux_nil]
    | cons c rest =>
      rw [List.length_cons] at hf hg hn
      cases f with
      | zero => omega
      | succ fa =>
        cases g with
        | zero => omega
        | succ ga =>
          simp only [replaceAllAux]
          by_cases hb : pat ≠ [] ∧ beginsWith pat (c :: rest) = true
          · rw [if_pos hb, if_pos hb]
            have hdl : (List.drop (pat.length - 1) rest).length ≤ rest.length := by
              rw [List.length_drop]
              omega
            rw [ih fa ga _ (by omega) (by omega) (by omega)]
          · rw [if_neg hb, if_neg hb]
            rw [ih fa ga rest (by omega) (by omega) (by omega)]

theorem replaceAllAux_eq (pat rep : List Char) (f : Nat) (s : List Char)
    (hf : s.length ≤ f) : replaceAllAux pat rep f s = replaceAll pat rep s :=
  replaceAllAux_fuelInv pat rep (max f s.length) f s.length s hf (le_refl _)
    (le_max_right _ _)

theorem replaceAll_cons_noMatch (pat rep : List Char) (c : Char) (s : List Char)
    (h : beginsWith pat (c :: s) = false) :
    replaceAll pat rep (c :: s) = c :: replaceAll pat rep s := by
  unfold replaceAll
  simp only [List.length_cons, replaceAllAux]
  rw [if_neg]
  intro hcon
  rw [h] at hcon
  exact absurd hcon.2 (by simp)

theorem beginsWith_append_self : ∀ p s : List Char, beginsWith p (p ++ s) = true := by
  intro p
  induction p with
  | nil => intro s; rfl
  | cons a as ih => intro s; simp [beginsWith, ih]

theorem replaceAll_match (q : Char) (qs rep s : List Char) :
    replaceAll (q :: qs) rep ((q :: qs) ++ s) = rep ++ replaceAll (q :: qs) rep s := by
  show replaceAllAux (q :: qs) rep ((q :: qs) ++ s).length (q :: (qs ++ s)) = _
  have hlen : ((q :: qs) ++ s).length = (qs ++ s).length + 1 := by simp
  rw [hlen]
  simp only [replaceAllAux]
  rw [if_pos ⟨List.cons_ne_nil q qs, beginsWith_append_self (q :: qs) s⟩]
  have hd : List.drop ((q :: qs).length - 1) (qs ++ s) = s := by
    simp [List.drop_left]
  rw [hd]
  congr 1
  apply replaceAllAux_eq
  simp

theorem beginsWith_head_ne (p : Char) (ps : List Char) (c : Char) (cs : List Char)
    (h : p ≠ c) : beginsWith (p :: ps) (c :: cs) = false := by
  simp [beginsWith, h]

theorem replaceAll_append_noBrace (q : Char) (qs rep : List Char) :
    ∀ (a s : List Char), (∀ c ∈ a, c ≠ q) →
      replaceAll (q :: qs) rep (a ++ s) = a ++ replaceAll (q :: qs) rep s := by
  intro a
  induction a with
  | nil => intro s _; rfl
  | cons c t ih =>
    intro s ha
    have hc : q ≠ c := fun hqc => ha c (List.mem_cons_self c t) hqc.symm
    rw [List.cons_append,
      replaceAll_cons_noMatch _ rep c (t ++ s) (beginsWith_head_ne q qs c _ hc),
      ih s fun x hx => ha x (List.mem_cons_of_mem _ hx)]
    rfl

theorem replaceAll_name_skips_email (nm s : List Char) :
    replaceAll nameTok nm (emailTok ++ s) = emailTok ++ replaceAll nameTok nm s := by
  show replaceAll nameTok nm
    ('{' :: '{' :: 'e' :: 'm' :: 'a' :: 'i' :: 'l' :: '}' :: '}' ::s) = _
  rw [replaceAll_cons_noMatch _ _ _ _ (by rfl), replaceAll_cons_noMatch _ _ _ _ (by rfl),
    replaceAll_cons_noMatch _ _ _ _ (by rfl), replaceAll_cons_noMatch _ _ _ _ (by rfl),
    replaceAll_cons_noMatch _ _ _ _ (by rfl), replaceAll_cons_noMatch _ _ _ _ (by rfl),
    replaceAll_cons_noMatch _ _ _ _ (by rfl), replaceAll_cons_noMatch _ _ _ _ (by rfl),
    replaceAll_cons_noMatch _ _ _ _ (by rfl)]
  rfl

theorem replaceAll_email_skips_name (em s : List Char) :
    replaceAll emailTok em (nameTok ++ s) = nameTok ++ replaceAll emailTok em s := by
  show replaceAll emailTok em
    ('{' :: '{' :: 'n' :: 'a' :: 'm' :: 'e' :: '}' :: '}' ::s) = _
  rw [replaceAll_cons_noMatch _ _ _ _ (by rfl), replaceAll_cons_noMatch _ _ _ _ (by rfl),
    replaceAll_cons_noMatch _ _ _ _ (by rfl), replaceAll_cons_noMatch _ _ _ _ (by rfl),
    replaceAll_cons_noMatch _ _ _ _ (by rfl), replaceAll_cons_noMatch _ _ _ _ (by rfl),
    replaceAll_cons_noMatch _ _ _ _ (by rfl), replaceAll_cons_noMatch _ _ _ _ (by rfl)]
  rfl

theorem replaceAll_noSub (pat rep : List Char) :
    ∀ s, hasSub pat s = false → replaceAll pat rep s = s := by
  intro s
  induction s with
  | nil => intro _; rfl
  | cons c rest ih =>
    intro h
    rw [hasSub, Bool.or_eq_false_iff] at h
    rw [replaceAll_cons_noMatch pat rep c rest h.1, ih h.2]

theorem substSpecAux_nil (nm em : List Char) : ∀ f, substSpecAux nm em f [] = [] := by
  intro f
  cases f <;> rfl

theorem substSpecAux_fuelInv (nm em : List Char) :
    ∀ (n f g : Nat) (s : List Char), s.length ≤ f → s.length ≤ g → s.length ≤ n →
      substSpecAux nm em f s = substSpecAux nm em g s := by
  intro n
  induction n with
  | zero =>
    intro f g s hf hg hn
    have hs : s = [] := by
      cases s with
      | nil => rfl
      | cons a t => rw [List.length_cons] at hn; omega
    subst hs
    rw [substSpecAux_nil, substSpecAux_nil]
  | succ m ih =>
    intro f g s hf hg hn
    cases s with
    | nil => rw [substSpecAux_nil, substSpecAux_nil]
    | cons c rest =>
      rw [List.length_cons] at hf hg hn
      cases f with
      | zero => omega
      | succ fa =>
        cases g with
        | zero => omega
        | succ ga =>
          simp only [substSpecAux]
          have h7 : (List.drop 7 rest).length ≤ rest.length := by
            rw [List.length_drop]; omega
          have h8 : (List.drop 8 rest).length ≤ rest.length := by
            rw [List.length_drop]; omega
          by_cases hb1 : beginsWith nameTok (c :: rest) = true
          · rw [if_pos hb1, if_pos hb1, ih fa ga _ (by omega) (by omega) (by omega)]
          · rw [if_neg hb1, if_neg hb1]
            by_cases hb2 : beginsWith emailTok (c :: rest) = true
            · rw [if_pos hb2, if_pos hb2, ih fa ga _ (by omega) (by omega) (by omega)]
            · rw [if_neg hb2, if_neg hb2,
                ih fa ga rest (by omega) (by omega) (by omega)]

theorem substSpecAux_eq (nm em : List Char) (f : Nat) (s : List Char)
    (hf : s.length ≤ f) : substSpecAux nm em f s = substSpec nm em s :=
  substSpecAux_fuelInv nm em (max f s.length) f s.length s hf (le_refl _)
    (le_max_right _ _)

theorem substSpec_cons_noMatch (nm em : List Char) (c : Char) (s : List Char)
    (h1 : beginsWith nameTok (c :: s) = false)
    (h2 : beginsWith emailTok (c :: s) = false) :
    substSpec nm em (c :: s) = c :: substSpec nm em s := by
  unfold substSpec
  simp only [List.length_cons, substSpecAux]
  rw [if_neg (by rw [h1]; simp), if_neg (by rw [h2]; simp)]

theorem substSpecAux_step (nm em : List Char) (f : Nat) (c : Char) (rest : List Char) :
    substSpecAux nm em (f + 1) (c :: rest) =
      if beginsWith nameTok (c :: rest) = true then
        nm ++ substSpecAux nm em f (List.drop 7 rest)
      else if beginsWith emailTok (c :: rest) = true then
        em ++ substSpecAux nm em f (List.drop 8 rest)
      else c :: substSpecAux nm em f rest := rfl

theorem substSpec_name (nm em s : List Char) :
    substSpec nm em (nameTok ++ s) = nm ++ substSpec nm em s := by
  show substSpecAux nm em (('{' :: 'n' :: 'a' :: 'm' :: 'e' :: '}' :: '}' ::s).length + 1)
    ('{' :: '{' :: 'n' :: 'a' :: 'm' :: 'e' :: '}' :: '}' ::s) = _
  rw [substSpecAux_step,
    if_pos (show beginsWith nameTok
      ('{' :: '{' :: 'n' :: 'a' :: 'm' :: 'e' :: '}' :: '}' ::s) = true from rfl),
    show List.drop 7 ('{' :: 'n' :: 'a' :: 'm' :: 'e' :: '}' :: '}' ::s) = s from rfl]
  congr 1
  apply substSpecAux_eq
  simp
  omega

theorem substSpec_email (nm em s : List Char) :
    substSpec nm em (emailTok ++ s) = em ++ substSpec nm em s := by
  show substSpecAux nm em (('{' :: 'e' :: 'm' :: 'a' :: 'i' :: 'l' :: '}' :: '}' ::s).length + 1)
    ('{' :: '{' :: 'e' :: 'm' :: 'a' :: 'i' :: 'l' :: '}' :: '}' ::s) = _
  rw [substSpecAux_step,
    if_neg (by rw [show beginsWith nameTok
      ('{' :: '{' :: 'e' :: 'm' :: 'a' :: 'i' :: 'l' :: '}' :: '}' ::s) = false from rfl]; simp),
    if_pos (show beginsWith emailTok
      ('{' :: '{' :: 'e' :: 'm' :: 'a' :: 'i' :: 'l' :: '}' :: '}' ::s) = true from rfl),
    show List.drop 8 ('{' :: 'e' :: 'm' :: 'a' :: 'i' :: 'l' :: '}' :: '}' ::s) = s from rfl]
  congr 1
  apply substSpecAux_eq
  simp
  omega

theorem substSpec_append_noBrace (nm em : List Char) :
    ∀ (a s : List Char), (∀ c ∈ a, c ≠ '{') →
      substSpec nm em (a ++ s) = a ++ substSpec nm em s := by
  intro a
  induction a with
  | nil => intro s _; rfl
  | cons c t ih =>
    intro s ha
    have hc : c ≠ '{' := ha c (List.mem_cons_self c t)
    rw [List.cons_append,
      substSpec_cons_noMatch nm em c (t ++ s)
        (beginsWith_head_ne _ _ c _ fun h => hc h.symm)
        (beginsWith_head_ne _ _ c _ fun h => hc h.symm),
      ih s fun x hx => ha x (List.mem_cons_of_mem _ hx)]
    rfl

/-! Specializations of the generic replace lemmas to the two tokens, and
the template-segment lemmas. -/

theorem replaceAll_nameTok_match (nm s : List Char) :
    replaceAll nameTok nm (nameTok ++ s) = nm ++ replaceAll nameTok nm s :=
  replaceAll_match '{' ['{', 'n', 'a', 'm', 'e', '}', '}'] nm s

theorem replaceAll_emailTok_match (em s : List Char) :
    replaceAll emailTok em (emailTok ++ s) = em ++ replaceAll emailTok em s :=
  replaceAll_match '{' ['{', 'e', 'm', 'a', 'i', 'l', '}', '}'] em s

theorem replaceAll_nameTok_lit (nm a s : List Char) (ha : ∀ c ∈ a, c ≠ '{') :
    replaceAll nameTok nm (a ++ s) = a ++ replaceAll nameTok nm s :=
  replaceAll_append_noBrace '{' ['{', 'n', 'a', 'm', 'e', '}', '}'] nm a s ha

theorem replaceAll_emailTok_lit (em a s : List Char) (ha : ∀ c ∈ a, c ≠ '{') :
    replaceAll emailTok em (a ++ s) = a ++ replaceAll emailTok em s :=
  replaceAll_append_noBrace '{' ['{', 'e', 'm', 'a', 'i', 'l', '}', '}'] em a s ha

theorem SegsClean_tail (g : Seg) (r : List Seg) (h : SegsClean (g :: r)) :
    SegsClean r :=
  fun s hs => h s (List.mem_cons_of_mem _ hs)

theorem replaceAll_flat_name (nm : List Char) :
    ∀ segs, SegsClean segs →
      replaceAll nameTok nm (flatSegs segs) = flatSegs (mapName nm segs) := by
  intro segs
  induction segs with
  | nil => intro _; rfl
  | cons g r ih =>
    intro hclean
    have hcr := SegsClean_tail g r hclean
    cases g with
    | lit s =>
      have hs : ∀ c ∈ s, c ≠ '{' := hclean s (List.mem_cons_self _ _)
      rw [show flatSegs (Seg.lit s :: r) = s ++ flatSegs r from rfl,
        replaceAll_nameTok_lit nm s _ hs, ih hcr]
      rfl
    | nameph =>
      rw [show flatSegs (Seg.nameph :: r) = nameTok ++ flatSegs r from rfl,
        replaceAll_nameTok_match, ih hcr]
      rfl
    | emailph =>
      rw [show flatSegs (Seg.emailph :: r) = emailTok ++ flatSegs r from rfl,
        replaceAll_name_skips_email, ih hcr]
      rfl

theorem replaceAll_flat_email (em : List Char) :
    ∀ segs, SegsClean segs →
      replaceAll emailTok em (flatSegs segs) = flatSegs (mapEmail em segs) := by
  intro segs
  induction segs with
  | nil => intro _; rfl
  | cons g r ih =>
    intro hclean
    have hcr := SegsClean_tail g r hclean
    cases g with
    | lit s =>
      have hs : ∀ c ∈ s, c ≠ '{' := hclean s (List.mem_cons_self _ _)
      rw [show flatSegs (Seg.lit s :: r) = s ++ flatSegs r from rfl,
        replaceAll_emailTok_lit em s _ hs, ih hcr]
      rfl
    | nameph =>
      rw [show flatSegs (Seg.nameph :: r) = nameTok ++ flatSegs r from rfl,
        replaceAll_email_skips_name, ih hcr]
      rfl
    | emailph =>
      rw [show flatSegs (Seg.emailph :: r) = emailTok ++ flatSegs r from rfl,
        replaceAll_emailTok_match, ih hcr]
      rfl

theorem mapName_clean (nm : List Char) (hnm : ∀ c ∈ nm, c ≠ '{') :
    ∀ segs, SegsClean segs → SegsClean (mapName nm segs) := by
  intro segs hclean s hs
  rw [mapName, List.mem_map] at hs
  obtain ⟨g, hg, hgs⟩ := hs
  cases g with
  | lit t =>
    rw [show mapNameSeg nm (Seg.lit t) = Seg.lit t from rfl] at hgs
    cases hgs
    exact hclean _ hg
  | nameph =>
    rw [show mapNameSeg nm Seg.nameph = Seg.lit nm from rfl] at hgs
    cases hgs
    exact hnm
  | emailph =>
    rw [show mapNameSeg nm Seg.emailph = Seg.emailph from rfl] at hgs
    cases hgs

theorem flatSegs_mapEmail_mapName (nm em : List Char) :
    ∀ segs, flatSegs (mapEmail em (mapName nm segs)) = substSegs nm em segs := by
  intro segs
  induction segs with
  | nil => rfl
  | cons g r ih =>
    cases g <;>
      simp only [mapName, mapEmail, mapNameSeg, mapEmailSeg, List.map_cons,
        flatSegs, substSegs] <;>
      simp only [mapName, mapEmail] at ih <;> rw [ih]

theorem substSpec_flat (nm em : List Char) :
    ∀ segs, SegsClean segs →
      substSpec nm em (flatSegs segs) = substSegs nm em segs := by
  intro segs
  induction segs with
  | nil => intro _; rfl
  | cons g r ih =>
    intro hclean
    have hcr := SegsClean_tail g r hclean
    cases g with
    | lit s =>
      have hs : ∀ c ∈ s, c ≠ '{' := hclean s (List.mem_cons_self _ _)
      rw [show flatSegs (Seg.lit s :: r) = s ++ flatSegs r from rfl,
        substSpec_append_noBrace nm em s _ hs, ih hcr]
      rfl
    | nameph =>
      rw [show flatSegs (Seg.nameph :: r) = nameTok ++ flatSegs r from rfl,
        substSpec_name, ih hcr]
      rfl
    | emailph =>
      rw [show flatSegs (Seg.emailph :: r) = emailTok ++ flatSegs r from rfl,
        substSpec_email, ih hcr]
      rfl

theorem segsCleanB_sound (segs : List Seg) (h : segsCleanB segs = true) :
    SegsClean segs := by
  intro s hs c hc
  rw [segsCleanB, List.all_eq_true] at h
  have h2 := h (Seg.lit s) hs
  rw [show segCleanB (Seg.lit s) = s.all (fun c => decide (c ≠ '{')) from rfl,
    List.all_eq_true] at h2
  exact of_decide_eq_true (h2 c hc)

/-! Claim theorems. -/

/-- C1: for every campaign, at every observation point of the send loop
(the freshly submitted state, the state before the loop, the state after
each recipient iteration, and the final state), the counters satisfy
`sent + failed = processed ≤ total`, `delivered = sent` and
`bounced = failed`; all counters start at 0 and are non-decreasing along
the whole trace.  This holds for every send/stop/write-failure behavior of
the collaborators. -/
theorem C1_counters_invariant (send : Nat → Option String) (wfail : Nat → Bool)
    (stopAt : Option Nat) (speed : Int) (total : Nat) :
    ((initCamp total).processed = 0 ∧ (initCamp total).sent = 0 ∧
        (initCamp total).failed = 0 ∧ (initCamp total).delivered = 0 ∧
        (initCamp total).bounced = 0) ∧
      (∀ x ∈ fullTrace total (run_campaign send wfail stopAt speed total), campInv x) ∧
      List.Chain' Camp.counterLe
        (fullTrace total (run_campaign send wfail stopAt speed total)) := by
  have h := runLoop_inv_aux send wfail stopAt (campDelay speed) total total 0
    { initCamp total with status := Status.running }
    (by simp [initCamp]) (by simp [initCamp]) (by simp [initCamp])
    (by simp [initCamp])
  refine ⟨by simp [initCamp], ?_, ?_⟩
  · intro x hx
    simp only [fullTrace, run_campaign, List.cons_append, List.mem_cons,
      List.mem_append, List.mem_singleton] at hx
    rcases hx with h1 | h1 | h1 | h1
    · subst h1
      simp [campInv, initCamp]
    · subst h1
      simp [campInv, initCamp]
    · exact h.1 x h1
    · rcases h1 with h1 | h1
      · subst h1
        exact h.2.1
      · simp at h1
  · simp only [fullTrace, run_campaign, List.cons_append, List.chain'_cons]
    refine ⟨by simp [initCamp, Camp.counterLe], ?_⟩
    have h3 := h.2.2
    simpa [List.cons_append] using h3

/-- C2, counterexample: the original claim says a stop requested on an
already-finished campaign is a no-op, but `stop_campaign` overwrites the
status of an owned in-memory campaign unconditionally: on a finished
campaign (2 of 2 recipients sent) the owner's stop request moves the
status from `finished` to `stopped`. -/
theorem C2_counterexample :
    Option.map (fun e => e.camp.status)
        (lookupMem
          [("user1-1",
            (⟨"user1", 60, ⟨Status.finished, 2, 2, 0, 2, 0, none, 2⟩⟩ : MemEntry))]
          "user1-1") = some Status.finished ∧
      Option.map (fun e => e.camp.status)
        (lookupMem
          (stop_campaign
            [("user1-1",
              (⟨"user1", 60, ⟨Status.finished, 2, 2, 0, 2, 0, none, 2⟩⟩ : MemEntry))]
            [] "user1" "user1-1").1
          "user1-1") = some Status.stopped ∧
      Status.stopped ≠ Status.finished := by
  decide

/-- C2, amended: within the execution task the status is monotone in the
order `queued < running < \x7bfinished, stopped\x7d` (it never moves
backward, and the task mutates nothing after its terminal state), but a
stop request on an owned in-memory campaign — including one that is
already `finished` — overwrites the status to `stopped` while leaving the
counters unchanged; it is not a no-op on finished campaigns. -/
theorem C2_amended_monotone :
    (∀ (send : Nat → Option String) (wfail : Nat → Bool) (stopAt : Option Nat)
        (speed : Int) (total : Nat),
      List.Chain' statusLe
        ((fullTrace total (run_campaign send wfail stopAt speed total)).map
          Camp.status)) ∧
      (∀ (mem : Mem) (db : List DBRow) (user cid : String) (e : MemEntry),
        lookupMem mem cid = some e → e.user = user →
        lookupMem (stop_campaign mem db user cid).1 cid =
          some ⟨e.user, e.speed_per_minute,
            { e.camp with status := Status.stopped }⟩) := by
  constructor
  · intro send wfail stopAt speed total
    simp only [fullTrace, run_campaign, List.cons_append, List.map_cons,
      List.map_append, List.map_cons, List.chain'_cons, List.map_nil]
    refine ⟨by simp [initCamp, statusLe, statusRank], ?_⟩
    have hrun : ({ initCamp total with status := Status.running } : Camp).status =
        Status.running := rfl
    have h1 := runLoop_trace_running send wfail stopAt (campDelay speed) total total 0
      { initCamp total with status := Status.running } hrun
    have h2 := runLoop_final_rank send wfail stopAt (campDelay speed) total total 0
      { initCamp total with status := Status.running } hrun
    have h3 := chain_running_rank _ h2
      ((runLoop send wfail stopAt (campDelay speed) total 0 total
        { initCamp total with status := Status.running }).trace.map Camp.status)
      (by
        intro s hs
        rw [List.mem_map] at hs
        obtain ⟨x, hx, hxs⟩ := hs
        rw [← hxs]
        exact h1 x hx)
    simpa using h3
  · intro mem db user cid e he hu
    unfold stop_campaign
    rw [he]
    simp only [hu, eq_self_iff_true, ite_true]
    rw [lookupMem_dictSet_self]

/-- C2, witness: a concrete monotone status trace (2 successful
recipients), and a concrete owned finished campaign whose stop request
lands as `stopped` with counters intact. -/
theorem C2_amended_witness :
    List.Chain' statusLe
        ((fullTrace 2 (run_campaign (fun _ => none) (fun _ => false) none 1 2)).map
          Camp.status) ∧
      lookupMem
        (stop_campaign
          [("user1-1",
            (⟨"user1", 60, ⟨Status.finished, 2, 2, 0, 2, 0, none, 2⟩⟩ : MemEntry))]
          [] "user1" "user1-1").1 "user1-1" =
        some ⟨"user1", 60, ⟨Status.stopped, 2, 2, 0, 2, 0, none, 2⟩⟩ :=
  ⟨C2_amended_monotone.1 (fun _ => none) (fun _ => false) none 1 2,
    C2_amended_monotone.2
      [("user1-1", (⟨"user1", 60, ⟨Status.finished, 2, 2, 0, 2, 0, none, 2⟩⟩ : MemEntry))]
      [] "user1" "user1-1"
      (⟨"user1", 60, ⟨Status.finished, 2, 2, 0, 2, 0, none, 2⟩⟩ : MemEntry)
      (by decide) (by decide)⟩

/-- C3, counterexample: the original claim says a failing Progress Sink
write does not abort the send loop.  With 2 recipients, a successful send
channel, and the write after recipient 1 raising, the worker aborts: only
one send is attempted (a run with healthy writes attempts two), only one
recipient is processed, and the campaign is left in `running` forever. -/
theorem C3_counterexample :
    (run_campaign (fun _ => none) (fun i => decide (i = 0)) none 1 2).aborted = true ∧
      (run_campaign (fun _ => none) (fun i => decide (i = 0)) none 1 2).sendCalls = 1 ∧
      (run_campaign (fun _ => none) (fun i => decide (i = 0)) none 1 2).final.processed
        = 1 ∧
      (run_campaign (fun _ => none) (fun i => decide (i = 0)) none 1 2).final.status =
        Status.running ∧
      (run_campaign (fun _ => none) (fun _ => false) none 1 2).sendCalls = 2 := by
  decide

/-- C3, amended: the per-recipient `update_campaign_db_stats` call is not
guarded, so when the write after recipient `k` raises, the exception
propagates and aborts the send loop: exactly `k + 1` sends are attempted,
`processed = k + 1`, recipients after `k` are never attempted, and the
status stays `running` (no terminal state is ever set). -/
theorem C3_amended_write_failure_aborts (send : Nat → Option String) (speed : Int)
    (total k : Nat) (hk : k < total) :
    (run_campaign send (fun i => decide (i = k)) none speed total).aborted = true ∧
      (run_campaign send (fun i => decide (i = k)) none speed total).sendCalls =
        k + 1 ∧
      (run_campaign send (fun i => decide (i = k)) none speed total).final.processed =
        k + 1 ∧
      (run_campaign send (fun i => decide (i = k)) none speed total).final.status =
        Status.running := by
  have h := runLoop_wfail send (campDelay speed) total k total 0
    { initCamp total with status := Status.running } (by omega) (by omega) rfl
  simp only [run_campaign]
  rcases h with ⟨h1, h2, h3, h4⟩
  refine ⟨h1, by rw [h2]; omega, by rw [h3]; simp [initCamp], h4⟩

/-- C3, witness: the amended theorem at 2 recipients with the write after
recipient 0 failing. -/
theorem C3_amended_witness :
    (run_campaign (fun _ => none) (fun i => decide (i = 0)) none 7 2).aborted = true ∧
      (run_campaign (fun _ => none) (fun i => decide (i = 0)) none 7 2).sendCalls =
        1 ∧
      (run_campaign (fun _ => none) (fun i => decide (i = 0)) none 7 2).final.processed
        = 1 ∧
      (run_campaign (fun _ => none) (fun i => decide (i = 0)) none 7 2).final.status =
        Status.running :=
  C3_amended_write_failure_aborts (fun _ => none) 7 2 0 (by decide)

/-- C4, counterexample: the original claim says that when creating the
durable row fails no campaign is registered at all, in particular no entry
for the new campaign id exists in working memory.  But `start_campaign`
stores the `CAMPAIGNS` entry before calling `create_campaign_db`, so after
a storage failure the in-memory entry is still registered. -/
theorem C4_counterexample :
    lookupMem (start_campaign [] [] 0 false "user1" "subj" 60 3 0).mem "user1-1" ≠
        none ∧
      (start_campaign [] [] 0 false "user1" "subj" 60 3 0).resp =
        Except.error ⟨500, "Database not configured (DATABASE_URL missing)."⟩ ∧
      (start_campaign [] [] 0 false "user1" "subj" 60 3 0).threadStarted = false ∧
      (start_campaign [] [] 0 false "user1" "subj" 60 3 0).db = [] := by
  decide

/-- C4, amended: when creating the durable campaign row fails, the error
is propagated to the submitter, no execution task is started and no
durable row exists — but the working-memory entry for the new campaign id
remains registered (status `queued`, counters zero, clamped speed). -/
theorem C4_amended_storage_failure (mem : Mem) (db : List DBRow) (counter : Nat)
    (user subject : String) (speed : Int) (total : Nat) (now : Nat) :
    (start_campaign mem db counter false user subject speed total now).resp =
        Except.error ⟨500, "Database not configured (DATABASE_URL missing)."⟩ ∧
      (start_campaign mem db counter false user subject speed total now).threadStarted
        = false ∧
      (start_campaign mem db counter false user subject speed total now).db = db ∧
      lookupMem (start_campaign mem db counter false user subject speed total now).mem
          (user ++ "-" ++ toString (counter + 1)) =
        some ⟨user, max 1 speed, initCamp total⟩ := by
  exact ⟨rfl, rfl, rfl, lookupMem_dictSet_self _ _ _⟩

/-- C5: with healthy durable writes and no stop request, every Send
Channel exception is caught and converted into per-recipient failure
counts: all `total` recipients are attempted, `processed = total`,
`sent`/`failed` count exactly the succeeding/raising recipients,
`delivered`/`bounced` mirror them, the campaign finishes, and
`last_error` ends up holding the message of the last failing recipient. -/
theorem C5_failure_isolation (send : Nat → Option String) (speed : Int)
    (total : Nat) :
    (run_campaign send (fun _ => false) none speed total).final.processed = total ∧
      (run_campaign send (fun _ => false) none speed total).sendCalls = total ∧
      (run_campaign send (fun _ => false) none speed total).final.sent =
        countSent send 0 total ∧
      (run_campaign send (fun _ => false) none speed total).final.failed =
        countFails send 0 total ∧
      (run_campaign send (fun _ => false) none speed total).final.delivered =
        (run_campaign send (fun _ => false) none speed total).final.sent ∧
      (run_campaign send (fun _ => false) none speed total).final.bounced =
        (run_campaign send (fun _ => false) none speed total).final.failed ∧
      (run_campaign send (fun _ => false) none speed total).final.status =
        Status.finished ∧
      (run_campaign send (fun _ => false) none speed total).aborted = false ∧
      (∀ k e, k < total → send k = some e → (∀ j, k < j → j < total → send j = none) →
        (run_campaign send (fun _ => false) none speed total).final.last_error =
          some e) := by
  have h := runLoop_noStop send (campDelay speed) total total 0
    { initCamp total with status := Status.running }
  have hinv := runLoop_inv_aux send (fun _ => false) none (campDelay speed) total
    total 0 { initCamp total with status := Status.running }
    (by simp [initCamp]) (by simp [initCamp]) (by simp [initCamp])
    (by simp [initCamp])
  rcases h with ⟨h1, h2, h3, h4, h5, h6⟩
  rcases hinv.2.1 with ⟨_, _, hi3, hi4⟩
  simp only [run_campaign]
  refine ⟨by rw [h1]; simp [initCamp], h2, by rw [h3]; simp [initCamp],
    by rw [h4]; simp [initCamp], hi3, hi4, by rw [h5]; simp, h6, ?_⟩
  intro k e hk hke hclean
  exact runLoop_lastErr_final send (campDelay speed) total total 0 _ k e
    (by omega) (by omega) hke (by intro j hj1 hj2; exact hclean j hj1 (by omega))

/-- C5, witness: 3 recipients where only recipient 2 of 3 (index 1)
raises `"boom"`: `processed = 3`, `sent = 2`, `failed = 1`, `last_error`
is the failure's description, and all 3 recipients were attempted. -/
theorem C5_witness :
    (run_campaign (fun i => if i = 1 then some "boom" else none) (fun _ => false)
        none 60 3).final.processed = 3 ∧
      (run_campaign (fun i => if i = 1 then some "boom" else none) (fun _ => false)
        none 60 3).sendCalls = 3 ∧
      (run_campaign (fun i => if i = 1 then some "boom" else none) (fun _ => false)
        none 60 3).final.sent = 2 ∧
      (run_campaign (fun i => if i = 1 then some "boom" else none) (fun _ => false)
        none 60 3).final.failed = 1 ∧
      (run_campaign (fun i => if i = 1 then some "boom" else none) (fun _ => false)
        none 60 3).final.status = Status.finished ∧
      (run_campaign (fun i => if i = 1 then some "boom" else none) (fun _ => false)
        none 60 3).final.last_error = some "boom" := by
  have h := C5_failure_isolation (fun i => if i = 1 then some "boom" else none) 60 3
  refine ⟨h.1, h.2.1, ?_, ?_, h.2.2.2.2.2.2.1, ?_⟩
  · rw [h.2.2.1]
    decide
  · rw [h.2.2.2.1]
    decide
  · refine h.2.2.2.2.2.2.2.2 1 "boom" (by decide) (by decide) ?_
    intro j hj1 hj2
    have hj : j = 2 := Nat.le_antisymm (Nat.lt_succ_iff.mp hj2) hj1
    rw [hj]
    decide

/-- C6: a stop request that becomes visible at the recipient-boundary
check before recipient `k` halts the loop there: exactly `min k total`
sends are attempted and processed, and the final status is `stopped`
whenever the stop was observed before exhaustion (`k < total`), else
`finished`.  In particular, with `total = 5` and the stop visible after 2
processed recipients, `processed = 2`, `status = stopped` and the Send
Channel was invoked exactly 2 times. -/
theorem C6_stop_semantics (send : Nat → Option String) (speed : Int)
    (total k : Nat) :
    (run_campaign send (fun _ => false) (some k) speed total).sendCalls =
        min k total ∧
      (run_campaign send (fun _ => false) (some k) speed total).final.processed =
        min k total ∧
      (run_campaign send (fun _ => false) (some k) speed total).final.status =
        (if k < total then Status.stopped else Status.finished) ∧
      (run_campaign send (fun _ => false) (some 2) speed 5).final.processed = 2 ∧
      (run_campaign send (fun _ => false) (some 2) speed 5).final.status =
        Status.stopped ∧
      (run_campaign send (fun _ => false) (some 2) speed 5).sendCalls = 2 := by
  have h := runLoop_stop send (campDelay speed) total k total 0
    { initCamp total with status := Status.running } (Nat.zero_le k) rfl
  have h5 := runLoop_stop send (campDelay speed) 5 2 5 0
    { initCamp 5 with status := Status.running } (Nat.zero_le 2) rfl
  rcases h with ⟨h1, h2, h3⟩
  rcases h5 with ⟨g1, g2, g3⟩
  simp only [run_campaign]
  refine ⟨by rw [h1]; omega, by rw [h2]; simp [initCamp], by rw [h3]; simp,
    by rw [g2]; simp [initCamp], by rw [g3]; norm_num, by rw [g1]; omega⟩

/-- C7: the stored `speed_per_minute` is `max 1 v` (so non-positive
submissions are forced to 1, never "unlimited"), the pacing interval is
exactly `60 / speed_per_minute` seconds and is positive, and a full
undisturbed run sleeps exactly `total - 1` times — after every recipient
except the last. -/
theorem C7_pacing (v : Int) (send : Nat → Option String) (total : Nat) :
    (1 : Int) ≤ max 1 v ∧
      (v ≤ 0 → max 1 v = 1) ∧
      campDelay (max 1 v) = 60 / ((max 1 v : Int) : ℚ) ∧
      0 < campDelay (max 1 v) ∧
      (run_campaign send (fun _ => false) none (max 1 v) total).waits = total - 1 := by
  have hmax : (0 : Int) < max 1 v := by
    have := le_max_left (1 : Int) v
    omega
  have hdelay : campDelay (max 1 v) = 60 / ((max 1 v : Int) : ℚ) := by
    unfold campDelay
    rw [if_pos hmax]
  have hpos : 0 < campDelay (max 1 v) := by
    rw [hdelay]
    apply div_pos
    · norm_num
    · exact_mod_cast hmax
  refine ⟨le_max_left 1 v, ?_, hdelay, hpos, ?_⟩
  · intro hv
    have := le_max_left (1 : Int) v
    omega
  · simp only [run_campaign]
    exact runLoop_waits send (campDelay (max 1 v)) total hpos total 0 _ (by omega)

/-- C7, witness: a supplied speed of `-5` is clamped to 1, the interval
is `60 / 1` and positive, and a 3-recipient run sleeps exactly twice. -/
theorem C7_witness :
    (1 : Int) ≤ max 1 (-5 : Int) ∧
      max 1 (-5 : Int) = 1 ∧
      campDelay (max 1 (-5 : Int)) = 60 / ((max 1 (-5 : Int) : Int) : ℚ) ∧
      0 < campDelay (max 1 (-5 : Int)) ∧
      (run_campaign (fun _ => none) (fun _ => false) none (max 1 (-5 : Int)) 3).waits =
        3 - 1 :=
  have h := C7_pacing (-5) (fun _ => none) 3
  ⟨h.1, h.2.1 (by decide), h.2.2.1, h.2.2.2.1, h.2.2.2.2⟩

/-- C8, counterexample: the original claim reads `render_template` as
simultaneous substitution on every body and recipient (`substSpec`), but
the source substitutes sequentially — name pass first, then an email pass
over the already-substituted text.  With body `\x7b\x7bname\x7d\x7d` and a
recipient whose name field is the literal text `\x7b\x7bemail\x7d\x7d` and
whose email is `x`, the code returns `x` while simultaneous substitution
returns the name field unchanged. -/
theorem C8_counterexample :
    render_template nameTok ⟨emailTok, ['x']⟩ = ['x'] ∧
      substSpec emailTok ['x'] nameTok = emailTok ∧
      render_template nameTok ⟨emailTok, ['x']⟩ ≠ substSpec emailTok ['x'] nameTok := by
  decide

/-- C8, amended: `render_template` substitutes in two sequential passes
(name token first, then email token over the result), so it coincides
with the claimed simultaneous substitution on every well-formed template —
a body assembled from brace-free literal text and the two tokens — as long
as the recipient's name field contains no `'\x7b'`; moreover both replace
every token occurrence by the corresponding field and keep the literal
text unchanged, and any body containing neither token is returned
unchanged for every recipient. -/
theorem C8_amended_render :
    (∀ (segs : List Seg) (nm em : List Char), SegsClean segs →
        (∀ c ∈ nm, c ≠ '{') →
        render_template (flatSegs segs) ⟨nm, em⟩ = substSpec nm em (flatSegs segs) ∧
          substSpec nm em (flatSegs segs) = substSegs nm em segs) ∧
      (∀ (body : List Char) (contact : Contact), hasSub nameTok body = false →
        hasSub emailTok body = false → render_template body contact = body) := by
  constructor
  · intro segs nm em hclean hnm
    have hspec := substSpec_flat nm em segs hclean
    refine ⟨?_, hspec⟩
    have h1 : replaceAll nameTok nm (flatSegs segs) = flatSegs (mapName nm segs) :=
      replaceAll_flat_name nm segs hclean
    have h2 : replaceAll emailTok em (flatSegs (mapName nm segs)) =
        flatSegs (mapEmail em (mapName nm segs)) :=
      replaceAll_flat_email em (mapName nm segs) (mapName_clean nm hnm segs hclean)
    rw [show render_template (flatSegs segs) ⟨nm, em⟩ =
        replaceAll emailTok em (replaceAll nameTok nm (flatSegs segs)) from rfl,
      h1, h2, flatSegs_mapEmail_mapName, hspec]
  · intro body contact h1 h2
    rw [show render_template body contact =
        replaceAll emailTok contact.email
          (replaceAll nameTok contact.name body) from rfl,
      replaceAll_noSub nameTok contact.name body h1,
      replaceAll_noSub emailTok contact.email body h2]

/-- C8, witness: the spec's example body rendered for
`name = Ann`, `email = a@x.com` equals its simultaneous substitution, and
a token-free body round-trips unchanged. -/
theorem C8_witness :
    render_template
        (flatSegs [Seg.lit ['H', 'i', ' '], Seg.nameph,
          Seg.lit [',', ' ', 'm', 'a', 'i', 'l', ' ', 't', 'o', ' '], Seg.emailph])
        ⟨['A', 'n', 'n'], ['a', '@', 'x', '.', 'c', 'o', 'm']⟩ =
      substSpec ['A', 'n', 'n'] ['a', '@', 'x', '.', 'c', 'o', 'm']
        (flatSegs [Seg.lit ['H', 'i', ' '], Seg.nameph,
          Seg.lit [',', ' ', 'm', 'a', 'i', 'l', ' ', 't', 'o', ' '], Seg.emailph]) ∧
      render_template ['H', 'i', '!'] ⟨['A'], ['b']⟩ = ['H', 'i', '!'] :=
  ⟨(C8_amended_render.1
      [Seg.lit ['H', 'i', ' '], Seg.nameph,
        Seg.lit [',', ' ', 'm', 'a', 'i', 'l', ' ', 't', 'o', ' '], Seg.emailph]
      ['A', 'n', 'n'] ['a', '@', 'x', '.', 'c', 'o', 'm']
      (segsCleanB_sound _ (by decide)) (by decide)).1,
    C8_amended_render.2 ['H', 'i', '!'] ⟨['A'], ['b']⟩ (by decide) (by decide)⟩

/-- C9: a `campaign_status` query by an authenticated user `B` for a
campaign id whose rows all belong to a different user `A` answers with the
404 `"Campaign not found"` error — byte-identical to the answer for an id
that has no row at all, revealing none of the record's fields. -/
theorem C9_ownership_isolation (db : List DBRow) (A B cid : String) (hBA : B ≠ A)
    (hown : ∀ r ∈ db, r.campaign_id = cid → r.username = A) :
    campaign_status db B cid = Except.error ⟨404, "Campaign not found"⟩ ∧
      ∀ cid2, (∀ r ∈ db, r.campaign_id ≠ cid2) →
        campaign_status db B cid = campaign_status db B cid2 := by
  have h404 : campaign_status db B cid = Except.error ⟨404, "Campaign not found"⟩ := by
    apply campaign_status_noMatch
    intro r hr hcon
    exact hBA (hcon.2.symm.trans (hown r hr hcon.1))
  refine ⟨h404, ?_⟩
  intro cid2 hnone
  rw [h404, campaign_status_noMatch db B cid2 fun r hr hcon => hnone r hr hcon.1]

/-- C9, witness: a concrete table holding one running campaign of
`user1`; a query by `user2` for that id gives the same 404 as a query for
an id that exists nowhere. -/
theorem C9_witness :
    campaign_status
        [⟨"user1-1", "user1", "s", Status.running, 3, 1, 1, 0, 1, 0, none, 0⟩]
        "user2" "user1-1" = Except.error ⟨404, "Campaign not found"⟩ ∧
      campaign_status
          [⟨"user1-1", "user1", "s", Status.running, 3, 1, 1, 0, 1, 0, none, 0⟩]
          "user2" "user1-1" =
        campaign_status
          [⟨"user1-1", "user1", "s", Status.running, 3, 1, 1, 0, 1, 0, none, 0⟩]
          "user2" "ghost" :=
  have h := C9_ownership_isolation
    [⟨"user1-1", "user1", "s", Status.running, 3, 1, 1, 0, 1, 0, none, 0⟩]
    "user1" "user2" "user1-1" (by decide) (by decide)
  ⟨h.1, h.2 "ghost" (by decide)⟩

/-- C10: `stop_campaign` returns the success acknowledgement for every
caller and campaign id — it has no not-found path — and when the id has no
in-memory entry owned by the caller and no durable row under the caller's
name (it exists nowhere, or belongs to another user), neither the working
memory nor the durable table changes. -/
theorem C10_stop_never_404 (mem : Mem) (db : List DBRow) (user cid : String) :
    (stop_campaign mem db user cid).2.2 = ⟨"Campaign stop requested", cid⟩ ∧
      ((∀ e, lookupMem mem cid = some e → e.user ≠ user) →
        (∀ r ∈ db, ¬(r.campaign_id = cid ∧ r.username = user)) →
        (stop_campaign mem db user cid).1 = mem ∧
          (stop_campaign mem db user cid).2.1 = db) := by
  unfold stop_campaign
  cases hmem : lookupMem mem cid with
  | none =>
    exact ⟨rfl, fun _ hdb => ⟨rfl, set_campaign_db_status_noMatch db cid user _ hdb⟩⟩
  | some e =>
    by_cases hu : e.user = user
    · simp only [hu, eq_self_iff_true, ite_true]
      exact ⟨trivial, fun hnot _ => absurd hu (hnot e rfl)⟩
    · simp only [hu, ite_false]
      exact ⟨trivial, fun _ hdb =>
        ⟨trivial, set_campaign_db_status_noMatch db cid user _ hdb⟩⟩

/-- C10, witness: with one in-memory campaign and one durable row both
owned by `user1`, a stop request by `user2` for that id (and one for an id
that exists nowhere) is acknowledged and changes nothing. -/
theorem C10_witness :
    (stop_campaign
        [("user1-1", (⟨"user1", 60, ⟨Status.running, 1, 1, 0, 1, 0, none, 3⟩⟩ : MemEntry))]
        [⟨"user1-1", "user1", "s", Status.running, 3, 1, 1, 0, 1, 0, none, 0⟩]
        "user2" "user1-1").2.2 = ⟨"Campaign stop requested", "user1-1"⟩ ∧
      (stop_campaign
        [("user1-1", (⟨"user1", 60, ⟨Status.running, 1, 1, 0, 1, 0, none, 3⟩⟩ : MemEntry))]
        [⟨"user1-1", "user1", "s", Status.running, 3, 1, 1, 0, 1, 0, none, 0⟩]
        "user2" "user1-1").1 =
        [("user1-1", (⟨"user1", 60, ⟨Status.running, 1, 1, 0, 1, 0, none, 3⟩⟩ : MemEntry))] ∧
      (stop_campaign
        [("user1-1", (⟨"user1", 60, ⟨Status.running, 1, 1, 0, 1, 0, none, 3⟩⟩ : MemEntry))]
        [⟨"user1-1", "user1", "s", Status.running, 3, 1, 1, 0, 1, 0, none, 0⟩]
        "user2" "user1-1").2.1 =
        [⟨"user1-1", "user1", "s", Status.running, 3, 1, 1, 0, 1, 0, none, 0⟩] := by
  have h := C10_stop_never_404
    [("user1-1", (⟨"user1", 60, ⟨Status.running, 1, 1, 0, 1, 0, none, 3⟩⟩ : MemEntry))]
    [⟨"user1-1", "user1", "s", Status.running, 3, 1, 1, 0, 1, 0, none, 0⟩]
    "user2" "user1-1"
  have h2 := h.2
    (by
      intro e he
      rw [show lookupMem
        [("user1-1", (⟨"user1", 60, ⟨Status.running, 1, 1, 0, 1, 0, none, 3⟩⟩ : MemEntry))]
        "user1-1" =
          some (⟨"user1", 60, ⟨Status.running, 1, 1, 0, 1, 0, none, 3⟩⟩ : MemEntry)
        from by decide] at he
      injection he with he2
      rw [← he2]
      decide)
    (by decide)
  exact ⟨h.1, h2.1, h2.2⟩

end SV
